import Mathlib

/-!
Verification of the OpenCRE persistence/query core against its specification.

The repository ships the test suite (`application/tests/db_test.py`) and the
OSIB interchange module (`application/defs/osib_defs.py`).  The database
module itself (`application/database/db.py`) is not part of the sources, so
the entity-store, hierarchy-guard, search, gap-analysis and embedding
operations are modelled from the specification's words (each such definition
says so in its doc comment).  The OSIB functions `parse_node`, `osib2cre` and
`cre2osib` are translated directly from `osib_defs.py`.
-/

namespace HierarchyGuard

/-- Modelled from the spec: the current set of `InternalLink` rows, each a
directed edge `group → cre` (`(group, cre)` pairs over opaque CRE ids). -/
abbrev Edges := List (Nat × Nat)

/-- Modelled from the spec: fuel-bounded forward reachability over the
`group → cre` edges ("whether `group` is reachable from `cre` by following
existing group→cre edges forward"). -/
def reachb (E : Edges) : Nat → Nat → Nat → Bool
  | 0, x, y => x == y
  | n + 1, x, y => x == y || E.any (fun e => e.1 == x && reachb E n e.2 y)

/-- Modelled from the spec: the reachability check used by the hierarchy
guard; fuel `E.length` suffices because a duplicate-free chain of edges
never uses more than `E.length` hops. -/
def reachable (E : Edges) (x y : Nat) : Bool :=
  reachb E E.length x y

/-- Modelled from the spec (`add_internal_link`, §4.2): before inserting the
edge `group → cre`, check whether `group` is reachable from `cre`; if so the
edge is rejected and silently dropped (no exception, no row written),
otherwise the edge row is inserted. -/
def add_internal_link (E : Edges) (cre group : Nat) : Edges :=
  if reachable E cre group then E else (group, cre) :: E

/-- Modelled from the spec: the InternalLink set is acyclic when no stored
edge `(g, c)` can be closed into a cycle, i.e. `g` is never reachable from
`c`. -/
def acyclicb (E : Edges) : Bool :=
  E.all (fun e => !reachable E e.2 e.1)

/-- Propositional reflexive-transitive forward reachability, used to relate
the fuel-bounded check to genuine paths. -/
inductive Reach (E : Edges) : Nat → Nat → Prop
  | refl (x : Nat) : Reach E x x
  | head {x z y : Nat} : (x, z) ∈ E → Reach E z y → Reach E x y

theorem Reach.trans {E : Edges} {x y z : Nat}
    (hxy : Reach E x y) (hyz : Reach E y z) : Reach E x z := by
  induction hxy with
  | refl => exact hyz
  | head hmem _ ih => exact Reach.head hmem (ih hyz)

theorem reachb_sound {E : Edges} {n x y : Nat}
    (h : reachb E n x y = true) : Reach E x y := by
  induction n generalizing x with
  | zero =>
    simp only [reachb, beq_iff_eq] at h
    exact h ▸ Reach.refl x
  | succ n ih =>
    simp only [reachb, Bool.or_eq_true, List.any_eq_true, Bool.and_eq_true,
      beq_iff_eq] at h
    rcases h with h | ⟨e, hmem, hsrc, hrest⟩
    · exact h ▸ Reach.refl x
    · exact Reach.head (show (x, e.2) ∈ E by rw [← hsrc]; exact hmem) (ih hrest)

theorem reachb_mono {E : Edges} {n m x y : Nat} (hnm : n ≤ m)
    (h : reachb E n x y = true) : reachb E m x y = true := by
  induction m generalizing n x with
  | zero =>
    have : n = 0 := Nat.le_zero.mp hnm
    subst this; exact h
  | succ m ih =>
    cases n with
    | zero =>
      simp only [reachb, beq_iff_eq] at h
      simp [reachb, h]
    | succ n =>
      simp only [reachb, Bool.or_eq_true, List.any_eq_true, Bool.and_eq_true] at h ⊢
      rcases h with h | ⟨e, hmem, hsrc, hrest⟩
      · exact Or.inl h
      · exact Or.inr ⟨e, hmem, hsrc, ih (Nat.le_of_succ_le_succ hnm) hrest⟩

/-- An explicit chain of edges: `chainP E x l y` holds when following the
nodes of `l` in order leads from `x` to `y`, each hop an edge of `E`. -/
def chainP (E : Edges) : Nat → List Nat → Nat → Prop
  | x, [], y => x = y
  | x, z :: l, y => (x, z) ∈ E ∧ chainP E z l y

theorem reach_to_chain {E : Edges} {x y : Nat} (h : Reach E x y) :
    ∃ l, chainP E x l y := by
  induction h with
  | refl x => exact ⟨[], rfl⟩
  | head hmem _ ih =>
    rcases ih with ⟨l, hc⟩
    exact ⟨_ :: l, hmem, hc⟩

theorem chain_split {E : Edges} {y : Nat} :
    ∀ (l1 : List Nat) (x z : Nat) (l2 : List Nat),
      chainP E x (l1 ++ z :: l2) y → chainP E z l2 y := by
  intro l1
  induction l1 with
  | nil => intro x z l2 h; exact h.2
  | cons a l1 ih => intro x z l2 h; exact ih a z l2 h.2

theorem chain_shorten {E : Edges} {y : Nat} :
    ∀ (n : Nat) (l : List Nat) (x : Nat), l.length ≤ n → chainP E x l y →
      ∃ l', chainP E x l' y ∧ l'.length ≤ l.length ∧ (x :: l').Nodup ∧ l' ⊆ l := by
  intro n
  induction n with
  | zero =>
    intro l x hlen hc
    have : l = [] := List.length_eq_zero.mp (Nat.le_zero.mp hlen)
    subst this
    exact ⟨[], hc, Nat.le_refl _, List.nodup_singleton x, List.Subset.refl _⟩
  | succ n ih =>
    intro l x hlen hc
    cases l with
    | nil =>
      exact ⟨[], hc, Nat.le_refl _, List.nodup_singleton x, List.Subset.refl _⟩
    | cons z ltail =>
      by_cases hx : x ∈ z :: ltail
      · rcases List.append_of_mem hx with ⟨s, t, hst⟩
        have hlens : (z :: ltail).length = s.length + t.length + 1 := by
          rw [hst]
          simp only [List.length_append, List.length_cons]
          omega
        have hct : chainP E x t y := by
          apply chain_split s x x t
          rw [← hst]; exact hc
        have hlent : t.length ≤ n := by
          simp only [List.length_cons] at hlens hlen
          omega
        rcases ih t x hlent hct with ⟨l', hc', hlen', hnd', hsub'⟩
        refine ⟨l', hc', ?_, hnd', ?_⟩
        · simp only [List.length_cons] at hlens ⊢
          omega
        · intro a ha
          have : a ∈ t := hsub' ha
          rw [hst]
          exact List.mem_append_right s (List.mem_cons_of_mem x this)
      · rcases hc with ⟨hmem, hctail⟩
        rcases ih ltail z (Nat.le_of_succ_le_succ hlen) hctail with
          ⟨l', hc', hlen', hnd', hsub'⟩
        have hsubz : z :: l' ⊆ z :: ltail := by
          intro a ha
          rcases List.mem_cons.mp ha with h | h
          · exact h ▸ List.mem_cons_self z ltail
          · exact List.mem_cons_of_mem z (hsub' h)
        have hxnot : x ∉ z :: l' := fun hmem2 => hx (hsubz hmem2)
        refine ⟨z :: l', ⟨hmem, hc'⟩, by simpa using Nat.succ_le_succ hlen',
          List.nodup_cons.mpr ⟨hxnot, hnd'⟩, hsubz⟩

theorem chain_in_erase {E : Edges} {y : Nat} (f : Nat × Nat) :
    ∀ (l : List Nat) (z : Nat), chainP E z l y → f.1 ∉ z :: l →
      chainP (E.erase f) z l y := by
  intro l
  induction l with
  | nil => intro z hc _; exact hc
  | cons a l ih =>
    intro z hc hnot
    rcases hc with ⟨hmem, hrest⟩
    have hzne : z ≠ f.1 := by
      intro h
      exact hnot (h ▸ List.mem_cons_self z (a :: l))
    have hne : (z, a) ≠ f := by
      intro h
      exact hzne (by rw [← h])
    refine ⟨(List.mem_erase_of_ne hne).mpr hmem, ih a hrest ?_⟩
    intro hmem2
    exact hnot (List.mem_cons_of_mem z hmem2)

theorem chain_length_le {y : Nat} :
    ∀ (l : List Nat) (E : Edges) (x : Nat), chainP E x l y → (x :: l).Nodup →
      l.length ≤ E.length := by
  intro l
  induction l with
  | nil => intro E x _ _; exact Nat.zero_le _
  | cons z ltail ih =>
    intro E x hc hnd
    rcases hc with ⟨hmem, hrest⟩
    have hxnot : x ∉ z :: ltail := (List.nodup_cons.mp hnd).1
    have hrest' : chainP (E.erase (x, z)) z ltail y :=
      chain_in_erase (x, z) ltail z hrest hxnot
    have hlen : ltail.length ≤ (E.erase (x, z)).length :=
      ih (E.erase (x, z)) z hrest' (List.nodup_cons.mp hnd).2
    have herase : (E.erase (x, z)).length = E.length - 1 :=
      List.length_erase_of_mem hmem
    have hpos : 0 < E.length := List.length_pos.mpr (List.ne_nil_of_mem hmem)
    simp only [List.length_cons]
    omega

theorem chain_to_reachb {E : Edges} {y : Nat} :
    ∀ (l : List Nat) (x : Nat), chainP E x l y →
      reachb E l.length x y = true := by
  intro l
  induction l with
  | nil =>
    intro x hc
    simpa [reachb] using hc
  | cons z l ih =>
    intro x hc
    rcases hc with ⟨hmem, hrest⟩
    simp only [List.length_cons, reachb, Bool.or_eq_true, List.any_eq_true,
      Bool.and_eq_true, beq_iff_eq]
    exact Or.inr ⟨(x, z), hmem, rfl, ih z hrest⟩

theorem reachb_complete {E : Edges} {x y : Nat} (h : Reach E x y) :
    reachable E x y = true := by
  rcases reach_to_chain h with ⟨l, hc⟩
  rcases chain_shorten l.length l x (Nat.le_refl _) hc with
    ⟨l', hc', _, hnd', _⟩
  have hlen : l'.length ≤ E.length := chain_length_le l' E x hc' hnd'
  exact reachb_mono hlen (chain_to_reachb l' x hc')

theorem reachable_iff {E : Edges} {x y : Nat} :
    reachable E x y = true ↔ Reach E x y :=
  ⟨reachb_sound, reachb_complete⟩

theorem acyclicb_iff {E : Edges} :
    acyclicb E = true ↔ ∀ e ∈ E, ¬ Reach E e.2 e.1 := by
  simp only [acyclicb, List.all_eq_true, Bool.not_eq_true',
    ← Bool.not_eq_true, reachable_iff]

/-- Adding the edge `(G, C)` to an acyclic graph in which `G` is not
reachable from `C` keeps the graph acyclic. -/
theorem acyclic_insert {E : Edges} {C G : Nat}
    (hac : ∀ e ∈ E, ¬ Reach E e.2 e.1) (hno : ¬ Reach E C G) :
    ∀ e ∈ (G, C) :: E, ¬ Reach ((G, C) :: E) e.2 e.1 := by
  have split_reach : ∀ {u v : Nat}, Reach ((G, C) :: E) u v →
      Reach E u v ∨ (Reach E u G ∧ Reach ((G, C) :: E) C v) := by
    intro u v h
    induction h with
    | refl w => exact Or.inl (Reach.refl w)
    | head hmem hrest ih =>
      rcases List.mem_cons.mp hmem with hnew | hold
      · have h1 : _ = G := congrArg Prod.fst hnew
        have h2 : _ = C := congrArg Prod.snd hnew
        exact Or.inr ⟨h1 ▸ Reach.refl _, h2 ▸ hrest⟩
      · rcases ih with h | ⟨hG, hC⟩
        · exact Or.inl (Reach.head hold h)
        · exact Or.inr ⟨Reach.head hold hG, hC⟩
  have drop_new : ∀ {v : Nat}, Reach ((G, C) :: E) C v → Reach E C v := by
    intro v h
    rcases split_reach h with h | ⟨hCG, _⟩
    · exact h
    · exact absurd hCG hno
  intro e hmem hre
  rcases List.mem_cons.mp hmem with hnew | hold
  · subst hnew
    exact hno (drop_new hre)
  · rcases split_reach hre with h | ⟨hG, hC⟩
    · exact hac e hold h
    · have hCe1 : Reach E C e.1 := drop_new hC
      have hCG : Reach E C G := Reach.trans hCe1 (Reach.head hold hG)
      exact hno hCG

end HierarchyGuard


/-- C1: for every current set of InternalLink edges and every pair of stored
CREs `C` and `G`, `add_internal_link (cre := C) (group := G)` inserts the edge
`G → C` only when `G` is not reachable from `C` over the existing edges;
otherwise the call is rejected silently (the edge set is returned unchanged,
no row written), the acyclicity of the InternalLink graph is preserved, and
in particular after edges `A→B` and `B→C` (with `A, B, C` as `0, 1, 2`) an
attempt to add `C→A` leaves exactly the original two edges persisted. -/
theorem C1_add_internal_link_cycle_guarded (E : HierarchyGuard.Edges)
    (C G : Nat) (hac : HierarchyGuard.acyclicb E = true) :
    HierarchyGuard.acyclicb (HierarchyGuard.add_internal_link E C G) = true
    ∧ (HierarchyGuard.reachable E C G = true →
        HierarchyGuard.add_internal_link E C G = E)
    ∧ (HierarchyGuard.reachable E C G = false →
        HierarchyGuard.add_internal_link E C G = (G, C) :: E)
    ∧ HierarchyGuard.add_internal_link
        (HierarchyGuard.add_internal_link
          (HierarchyGuard.add_internal_link [] 1 0) 2 1) 0 2
      = [(1, 2), (0, 1)] := by
  refine ⟨?_, ?_, ?_, by decide⟩
  · by_cases h : HierarchyGuard.reachable E C G
    · simpa [HierarchyGuard.add_internal_link, h] using hac
    · have hno : ¬ HierarchyGuard.Reach E C G := fun hr =>
        h (HierarchyGuard.reachb_complete hr)
      simp only [HierarchyGuard.add_internal_link, h, if_false]
      exact HierarchyGuard.acyclicb_iff.mpr
        (HierarchyGuard.acyclic_insert (HierarchyGuard.acyclicb_iff.mp hac) hno)
  · intro h
    simp [HierarchyGuard.add_internal_link, h]
  · intro h
    simp [HierarchyGuard.add_internal_link, h]

/-- Witness for C1 at a concrete input: the one-edge graph `[(0, 1)]` is
acyclic and stays acyclic after a guarded insertion. -/
theorem C1_add_internal_link_cycle_guarded_witness :
    HierarchyGuard.acyclicb (HierarchyGuard.add_internal_link [(0, 1)] 2 0)
      = true :=
  (C1_add_internal_link_cycle_guarded [(0, 1)] 2 0 (by decide)).1

namespace EntityStore

/-- Modelled from the spec: a persisted CRE row of the Entity Store, with a
store-assigned internal identity. -/
structure CRERow where
  id : Nat
  external_id : String
  name : String
  description : String
  tags : String
deriving DecidableEq

/-- Modelled from the spec: a CRE candidate handed to the upsert (its `id`
is the human-assigned external identity). -/
structure CRECand where
  id : String
  name : String
  description : String
  tags : String
deriving DecidableEq

/-- Modelled from the spec (§4.1 `upsert_cre`, `add_cre` in the tests): look
up an existing CRE by name only; if found, return the stored record
unmodified and leave the store unchanged (the candidate is silently
discarded); if not found, persist the candidate with a store-assigned id and
return it. -/
def add_cre (store : List CRERow) (c : CRECand) : CRERow × List CRERow :=
  match store.find? (fun r => r.name == c.name) with
  | some r => (r, store)
  | none =>
      let r : CRERow := ⟨store.length, c.id, c.name, c.description, c.tags⟩
      (r, store ++ [r])

/-- Modelled from the spec: a node row as seen by the mirror-backed
`get_nodes` lookup. -/
structure NodeRow where
  name : String
  ntype : String
  sectionVal : String
  subsection : String
  link : String
  sectionID : String
deriving DecidableEq

/-- Modelled from the spec: an optional query field matches when absent or
equal to the stored value. -/
def fieldMatches (q : Option String) (v : String) : Bool :=
  match q with
  | none => true
  | some s => s == v

/-- Modelled from the spec (§4.1 failure modes, §7 invalid request and
`get_nodes` in the tests): a node lookup issued with no identifying
parameters at all is rejected immediately with the descriptive failure
"tried to retrieve node with no values"; otherwise the stored nodes
matching every populated field are returned. -/
def get_nodes (nodes : List NodeRow)
    (name ntype sectionQ subsection link sectionID : Option String) :
    Except String (List NodeRow) :=
  if name.isNone && ntype.isNone && sectionQ.isNone && subsection.isNone
      && link.isNone && sectionID.isNone then
    Except.error "tried to retrieve node with no values"
  else
    Except.ok (nodes.filter (fun n =>
      fieldMatches name n.name && fieldMatches ntype n.ntype
        && fieldMatches sectionQ n.sectionVal
        && fieldMatches subsection n.subsection
        && fieldMatches link n.link && fieldMatches sectionID n.sectionID))

end EntityStore

/-- C2: calling the CRE upsert a second time with the same name but a
different description is idempotent on the store: both calls return the
first-inserted record (with the original description), the store is left
exactly as after the first call, and exactly one row with that name exists
(the later candidate's fields are silently discarded). -/
theorem C2_add_cre_insert_only (store : List EntityStore.CRERow)
    (c c2 : EntityStore.CRECand)
    (habsent : store.all (fun r => !(r.name == c.name)) = true)
    (hname : c2.name = c.name) (hdesc : c2.description ≠ c.description) :
    (EntityStore.add_cre (EntityStore.add_cre store c).2 c2).1
        = (EntityStore.add_cre store c).1
    ∧ (EntityStore.add_cre (EntityStore.add_cre store c).2 c2).2
        = (EntityStore.add_cre store c).2
    ∧ (EntityStore.add_cre store c).1.description = c.description
    ∧ ((EntityStore.add_cre store c).2.filter
        (fun r => r.name == c.name)).length = 1 := by
  have hnomatch : ∀ r ∈ store, ¬ ((fun r : EntityStore.CRERow =>
      r.name == c.name) r = true) := by
    intro r hr
    have := List.all_eq_true.mp habsent r hr
    simpa using this
  have hfind : store.find? (fun r => r.name == c.name) = none :=
    List.find?_eq_none.mpr hnomatch
  have h1 : EntityStore.add_cre store c =
      (⟨store.length, c.id, c.name, c.description, c.tags⟩,
        store ++ [⟨store.length, c.id, c.name, c.description, c.tags⟩]) := by
    simp [EntityStore.add_cre, hfind]
  have hfind2 : (store ++
      [(⟨store.length, c.id, c.name, c.description, c.tags⟩ :
        EntityStore.CRERow)]).find? (fun r => r.name == c2.name)
      = some ⟨store.length, c.id, c.name, c.description, c.tags⟩ := by
    have : (fun r : EntityStore.CRERow => r.name == c2.name)
        = (fun r : EntityStore.CRERow => r.name == c.name) := by
      funext r; rw [hname]
    rw [this, List.find?_append, hfind]
    simp
  refine ⟨?_, ?_, ?_, ?_⟩
  · rw [h1]
    simp [EntityStore.add_cre, hfind2]
  · rw [h1]
    simp [EntityStore.add_cre, hfind2]
  · rw [h1]
  · rw [h1]
    rw [List.filter_append, List.filter_eq_nil_iff.mpr hnomatch]
    simp

/-- Witness for C2 at a concrete input: upserting the same name twice with
different descriptions starting from the empty store. -/
theorem C2_add_cre_insert_only_witness :
    (EntityStore.add_cre
        (EntityStore.add_cre [] ⟨"123", "n", "d1", ""⟩).2
        ⟨"123", "n", "d2", ""⟩).1
      = (EntityStore.add_cre [] ⟨"123", "n", "d1", ""⟩).1 :=
  (C2_add_cre_insert_only [] ⟨"123", "n", "d1", ""⟩ ⟨"123", "n", "d2", ""⟩
    (by decide) rfl (by decide)).1

/-- C9: a node lookup issued with no identifying parameters at all is
rejected immediately with the descriptive failure
"tried to retrieve node with no values" — it never silently returns an
empty result. -/
theorem C9_get_nodes_no_params_rejected (nodes : List EntityStore.NodeRow) :
    EntityStore.get_nodes nodes none none none none none none
      = Except.error "tried to retrieve node with no values"
    ∧ EntityStore.get_nodes nodes none none none none none none
      ≠ Except.ok [] := by
  refine ⟨rfl, ?_⟩
  intro h
  exact Except.noConfusion h

namespace SearchEngine

/-- Modelled from the spec: whitespace characters recognised by tag
normalization. -/
def isWS (c : Char) : Bool :=
  c == ' ' || c == '\n' || c == '\t' || c == '\r'

/-- Modelled from the spec: collapse every whitespace run to a single
space. -/
def squeeze : List Char → List Char
  | [] => []
  | c :: rest =>
      let acc := squeeze rest
      if isWS c then
        match acc with
        | ' ' :: _ => acc
        | _ => ' ' :: acc
      else c :: acc

/-- Modelled from the spec (§4.3 tag search): normalize one tag by trimming
surrounding whitespace and collapsing internal whitespace runs to a single
space. -/
def normTag (s : String) : String :=
  let l := squeeze s.toList
  let l := l.dropWhile (fun c => c == ' ')
  let l := (l.reverse.dropWhile (fun c => c == ' ')).reverse
  String.mk l

/-- Modelled from the spec: split a character list on commas. -/
def splitComma : List Char → List (List Char)
  | [] => [[]]
  | c :: rest =>
      let r := splitComma rest
      if c == ',' then [] :: r
      else
        match r with
        | [] => [[c]]
        | h :: t => (c :: h) :: t

/-- Modelled from the spec: a stored document's raw tag string is split on
commas and each piece normalized. -/
def splitTags (raw : String) : List String :=
  (splitComma raw.toList).map (fun l => normTag (String.mk l))

/-- Modelled from the spec: a stored document as seen by the tag search. -/
structure TaggedDoc where
  name : String
  doctype : String
  tags : String
deriving DecidableEq

/-- Modelled from the spec (§4.3 `get_by_tags`): normalize the tags on both
the query and every stored document; a document is returned when it shares
at least one normalized tag with the query set; an empty query list yields
an empty result. -/
def get_by_tags (docs : List TaggedDoc) (query : List String) :
    List TaggedDoc :=
  let qn := query.map normTag
  docs.filter (fun d => (splitTags d.tags).any (fun t => qn.contains t))

/-- The CRE document of the §8 tag-search scenario. -/
def tagCRE : TaggedDoc :=
  ⟨"tagCREname1", "CRE", "tag1,dash-2,underscore_3,space 4,co_mb-ination%5"⟩

/-- The Standard document of the §8 tag-search scenario. -/
def tagStandard : TaggedDoc :=
  ⟨"tagsstand", "Standard",
    "tag1, dots.5.5, space 6 , several spaces and newline          7        \n"⟩

end SearchEngine

/-- C6: `get_by_tags` matches by set intersection of normalized tags (split
on commas, surrounding whitespace trimmed, internal whitespace runs
collapsed): a document is returned iff it shares at least one normalized tag
with the normalized query list; on the §8 documents, querying `["dash-2"]`
returns only the CRE, `["space 6"]` returns only the Standard (whose raw tag
" space 6 " normalizes to "space 6"), `["tag1"]` returns both, and the empty
query returns the empty list. -/
theorem C6_get_by_tags_set_intersection :
    (∀ (docs : List SearchEngine.TaggedDoc) (q : List String)
        (d : SearchEngine.TaggedDoc),
      d ∈ SearchEngine.get_by_tags docs q ↔
        d ∈ docs ∧ ∃ t ∈ SearchEngine.splitTags d.tags,
          t ∈ q.map SearchEngine.normTag)
    ∧ SearchEngine.get_by_tags [SearchEngine.tagCRE, SearchEngine.tagStandard]
        ["dash-2"] = [SearchEngine.tagCRE]
    ∧ SearchEngine.get_by_tags [SearchEngine.tagCRE, SearchEngine.tagStandard]
        ["space 6"] = [SearchEngine.tagStandard]
    ∧ SearchEngine.get_by_tags [SearchEngine.tagCRE, SearchEngine.tagStandard]
        ["tag1"] = [SearchEngine.tagCRE, SearchEngine.tagStandard]
    ∧ SearchEngine.get_by_tags [SearchEngine.tagCRE, SearchEngine.tagStandard]
        [] = [] := by
  refine ⟨?_, by decide, by decide, by decide, by decide⟩
  intro docs q d
  simp only [SearchEngine.get_by_tags, List.mem_filter, List.any_eq_true,
    List.contains_iff_exists_mem_beq, beq_iff_eq]
  constructor
  · rintro ⟨hd, t, ht, t', ht', heq⟩
    exact ⟨hd, t, ht, heq ▸ ht'⟩
  · rintro ⟨hd, t, ht, ht'⟩
    exact ⟨hd, t, ht, t, ht', rfl⟩

namespace EmbeddingIndex

/-- Modelled from the spec (§3, §4.6): a stored embedding row, tagged with
its owner's document type; the two owner-reference fields are mutually
exclusive. -/
structure Embedding where
  doc_type : String
  cre_id : Option Nat
  node_id : Option Nat
deriving DecidableEq

/-- Modelled from the spec: the owner id of an embedding row (the populated
one of the two owner-reference fields). -/
def owner_id (e : Embedding) : Nat :=
  match e.cre_id with
  | some i => i
  | none => e.node_id.getD 0

/-- Modelled from the spec (§4.6): paginated retrieval of stored vectors
keyed by document type, returning `(mapping, total_pages, current_page)`
with `total_pages = ceil(count / per_page)`; an unknown or empty doctype
yields an empty mapping and zero total pages, not an error. -/
def get_embeddings_by_doc_type_paginated (embs : List Embedding)
    (doc_type : String) (page per_page : Nat) :
    List (Nat × Embedding) × Nat × Nat :=
  let matching := embs.filter (fun e => e.doc_type == doc_type)
  let total_pages := (matching.length + per_page - 1) / per_page
  let items := (matching.drop ((page - 1) * per_page)).take per_page
  (items.map (fun e => (owner_id e, e)), total_pages, page)

/-- A CRE embedding row of the §8 pagination scenario. -/
def creEmb (i : Nat) : Embedding := ⟨"CRE", some i, none⟩

/-- A Standard embedding row of the §8 pagination scenario. -/
def stdEmb (i : Nat) : Embedding := ⟨"Standard", none, some i⟩

/-- The twenty embedding rows of the §8 pagination scenario: ten for CREs
followed by ten for Standards. -/
def embs20 : List Embedding :=
  ((List.range 10).map creEmb) ++ ((List.range 10).map stdEmb)

end EmbeddingIndex

/-- C8: `get_embeddings_by_doc_type_paginated` returns
`(mapping, total_pages, current_page)` with
`total_pages = ceil(count / per_page)` (characterized by
`count ≤ total_pages * per_page < count + per_page`) and
`current_page = page`; after inserting ten CRE and ten Standard embeddings,
the CRE call with `page = 1, per_page = 1` returns exactly one entry keyed
by a cre owner id with `total_pages = 10` and `current_page = 1`, and a
doctype with zero stored embeddings yields an empty mapping with
`total_pages = 0` rather than an error. -/
theorem C8_embeddings_pagination (embs : List EmbeddingIndex.Embedding)
    (dt : String) (page per_page : Nat) (hper : 0 < per_page) :
    ((embs.filter (fun e => e.doc_type == dt)).length ≤
        (EmbeddingIndex.get_embeddings_by_doc_type_paginated embs dt page
          per_page).2.1 * per_page
      ∧ (EmbeddingIndex.get_embeddings_by_doc_type_paginated embs dt page
          per_page).2.1 * per_page <
        (embs.filter (fun e => e.doc_type == dt)).length + per_page
      ∧ (EmbeddingIndex.get_embeddings_by_doc_type_paginated embs dt page
          per_page).2.2 = page)
    ∧ (EmbeddingIndex.get_embeddings_by_doc_type_paginated
        EmbeddingIndex.embs20 "CRE" 1 1).1
        = [(0, EmbeddingIndex.creEmb 0)]
    ∧ (EmbeddingIndex.get_embeddings_by_doc_type_paginated
        EmbeddingIndex.embs20 "CRE" 1 1).2.1 = 10
    ∧ (EmbeddingIndex.get_embeddings_by_doc_type_paginated
        EmbeddingIndex.embs20 "CRE" 1 1).2.2 = 1
    ∧ EmbeddingIndex.get_embeddings_by_doc_type_paginated
        EmbeddingIndex.embs20 "Tool" 1 1 = ([], 0, 1) := by
  refine ⟨⟨?_, ?_, rfl⟩, by decide, by decide, by decide, by decide⟩
  all_goals
    simp only [EmbeddingIndex.get_embeddings_by_doc_type_paginated]
  all_goals
    generalize (List.filter (fun e => e.doc_type == dt) embs).length = count
  · have hdm := Nat.div_add_mod (count + per_page - 1) per_page
    have hmod : (count + per_page - 1) % per_page < per_page :=
      Nat.mod_lt _ hper
    rw [Nat.mul_comm]
    generalize hM : per_page * ((count + per_page - 1) / per_page) = M
      at hdm ⊢
    omega
  · have hdm := Nat.div_add_mod (count + per_page - 1) per_page
    have hmod : (count + per_page - 1) % per_page < per_page :=
      Nat.mod_lt _ hper
    rw [Nat.mul_comm]
    generalize hM : per_page * ((count + per_page - 1) / per_page) = M
      at hdm ⊢
    omega

/-- Witness for C8 at a concrete input: with one matching embedding and
`per_page = 2` the page count is the ceiling `1`. -/
theorem C8_embeddings_pagination_witness :
    (EmbeddingIndex.get_embeddings_by_doc_type_paginated
        [EmbeddingIndex.creEmb 0] "CRE" 1 2).2.1 * 2 < 1 + 2 :=
  (C8_embeddings_pagination [EmbeddingIndex.creEmb 0] "CRE" 1 2
    (by decide)).1.2.1

namespace GapAnalysis

/-- Modelled from the spec (§4.5): the relationship type carried by one hop
of a discovered path. -/
inductive RelType
  | LINKED_TO
  | RELATED
deriving DecidableEq

/-- Modelled from the spec: per-relationship-type weight; the spec fixes
only the ordering (the more authoritative LINKED_TO scores lower than the
weaker RELATED), and the tests pin the all-LINKED_TO score to 0. -/
def relWeight : RelType → Nat
  | RelType.LINKED_TO => 0
  | RelType.RELATED => 20

/-- Modelled from the spec: a CRE as it appears in gap-analysis results. -/
structure GCRE where
  id : Nat
  name : String
deriving DecidableEq

/-- Modelled from the spec: one hop of a discovered path, carrying its
relationship type. -/
structure Hop where
  start : GCRE
  finish : GCRE
  relationship : RelType
deriving DecidableEq

/-- Modelled from the spec: a path record reported by the graph mirror for
one discovered `(start, end)` pair. -/
structure PathRec where
  start : GCRE
  finish : GCRE
  path : List Hop
deriving DecidableEq

/-- Modelled from the spec: the surviving entry stored per `(start, end)`
pair. -/
structure PathEntry where
  finish : GCRE
  path : List Hop
  score : Nat
deriving DecidableEq

/-- Modelled from the spec: the entry kept per start node: the start CRE and
its map of end id to surviving path. -/
structure StartEntry where
  start : GCRE
  paths : List (Nat × PathEntry)
deriving DecidableEq

/-- Modelled from the spec: the score of a path is the sum of its per-hop
relationship weights. -/
def get_path_score (p : List Hop) : Nat :=
  (p.map (fun h => relWeight h.relationship)).sum

/-- Modelled from the spec: keep the stored path for an end id unless the
newly discovered one has a strictly lower score (ties keep the first
encountered); an unseen end id is appended. -/
def updatePaths (ps : List (Nat × PathEntry)) (k : Nat) (e : PathEntry) :
    List (Nat × PathEntry) :=
  match ps with
  | [] => [(k, e)]
  | (k', old) :: rest =>
      if k' == k then
        if e.score < old.score then (k', e) :: rest else (k', old) :: rest
      else (k', old) :: updatePaths rest k e

/-- Modelled from the spec: fold one reported path record into the result
mapping, keyed by the start CRE's id. -/
def addRec (m : List (Nat × StartEntry)) (r : PathRec) :
    List (Nat × StartEntry) :=
  let entry : PathEntry := ⟨r.finish, r.path, get_path_score r.path⟩
  match m with
  | [] => [(r.start.id, ⟨r.start, [(r.finish.id, entry)]⟩)]
  | (k, se) :: rest =>
      if k == r.start.id then
        (k, ⟨se.start, updatePaths se.paths r.finish.id entry⟩) :: rest
      else (k, se) :: addRec rest r

/-- Modelled from the spec (§4.5 `gap_analysis`): when the graph mirror is
not connected the distinguishable absent sentinel is returned; otherwise the
result maps every reported start node's id to its CRE with an initially
empty paths map, and every reported path record is folded in, keeping per
`(start, end)` pair the path with the strictly lowest score. -/
def gap_analysis (connected : Bool) (start_nodes : List GCRE)
    (path_recs : List PathRec) : Option (List (Nat × StartEntry)) :=
  if connected then
    let init := start_nodes.map (fun c => (c.id, (⟨c, []⟩ : StartEntry)))
    some (path_recs.foldl addRec init)
  else none

end GapAnalysis

/-- C4: `gap_analysis` distinguishes three result shapes: a disconnected
mirror yields the absent sentinel (never an empty mapping); a connected
mirror with no matching start nodes yields the empty mapping; and a start
node with no outgoing paths still appears, mapped to its start CRE with an
empty paths map. -/
theorem C4_gap_analysis_result_shapes :
    (∀ (sn : List GapAnalysis.GCRE) (pr : List GapAnalysis.PathRec),
      GapAnalysis.gap_analysis false sn pr = none)
    ∧ GapAnalysis.gap_analysis true [] [] = some []
    ∧ (∀ c : GapAnalysis.GCRE,
      GapAnalysis.gap_analysis true [c] [] = some [(c.id, ⟨c, []⟩)]) := by
  exact ⟨fun _ _ => rfl, rfl, fun _ => rfl⟩

namespace GapAnalysis

theorem score_all_strong {p : List Hop}
    (hp : ∀ h ∈ p, h.relationship = RelType.LINKED_TO) :
    get_path_score p = 0 := by
  induction p with
  | nil => rfl
  | cons h t ih =>
    have hh := hp h (List.mem_cons_self h t)
    have ht := fun x hx => hp x (List.mem_cons_of_mem h hx)
    simp [get_path_score] at ih ⊢
    exact ⟨by simp [hh, relWeight], ih ht⟩

theorem score_weak_pos {q : List Hop}
    (hq : ∃ h ∈ q, h.relationship = RelType.RELATED) :
    0 < get_path_score q := by
  induction q with
  | nil => simp at hq
  | cons h t ih =>
    rcases hq with ⟨x, hx, hrel⟩
    rcases List.mem_cons.mp hx with rfl | hxt
    · simp [get_path_score, hrel, relWeight]
    · have := ih ⟨x, hxt, hrel⟩
      simp [get_path_score] at this ⊢
      omega

end GapAnalysis

/-- C3: when the mirror reports two paths between the same `(start, end)`
pair — one composed entirely of the strongest relationship type
(`LINKED_TO` hops) and one containing a weaker `RELATED` hop —
`gap_analysis` reduces them to exactly one entry for the pair, keeping the
all-strong path (score 0, the strictly lowest) independent of the order in
which the two paths were reported; ties keep the first encountered. -/
theorem C3_gap_analysis_dedup_lowest_score (s e : GapAnalysis.GCRE)
    (p q : List GapAnalysis.Hop)
    (hp : ∀ h ∈ p, h.relationship = GapAnalysis.RelType.LINKED_TO)
    (hq : ∃ h ∈ q, h.relationship = GapAnalysis.RelType.RELATED) :
    GapAnalysis.gap_analysis true [s] [⟨s, e, p⟩, ⟨s, e, q⟩]
      = some [(s.id, ⟨s, [(e.id, ⟨e, p, 0⟩)]⟩)]
    ∧ GapAnalysis.gap_analysis true [s] [⟨s, e, q⟩, ⟨s, e, p⟩]
      = some [(s.id, ⟨s, [(e.id, ⟨e, p, 0⟩)]⟩)]
    ∧ (∀ p2 q2 : List GapAnalysis.Hop,
        GapAnalysis.get_path_score p2 = GapAnalysis.get_path_score q2 →
        GapAnalysis.gap_analysis true [s] [⟨s, e, p2⟩, ⟨s, e, q2⟩]
          = some [(s.id,
              ⟨s, [(e.id, ⟨e, p2, GapAnalysis.get_path_score p2⟩)]⟩)]) := by
  have hsp : GapAnalysis.get_path_score p = 0 := GapAnalysis.score_all_strong hp
  have hsq : 0 < GapAnalysis.get_path_score q := GapAnalysis.score_weak_pos hq
  refine ⟨?_, ?_, ?_⟩
  · simp [GapAnalysis.gap_analysis, GapAnalysis.addRec, GapAnalysis.updatePaths,
      hsp, Nat.not_lt_zero]
  · simp [GapAnalysis.gap_analysis, GapAnalysis.addRec, GapAnalysis.updatePaths,
      hsp, hsq]
  · intro p2 q2 heq
    simp [GapAnalysis.gap_analysis, GapAnalysis.addRec, GapAnalysis.updatePaths,
      heq]

/-- Witness for C3 at a concrete input: one all-LINKED_TO two-hop path and
one path with a RELATED hop between start id 1 and end id 2. -/
theorem C3_gap_analysis_dedup_lowest_score_witness :
    GapAnalysis.gap_analysis true [⟨1, "bob"⟩]
      [⟨⟨1, "bob"⟩, ⟨2, "bob"⟩,
          [⟨⟨10, "a"⟩, ⟨1, "bob"⟩, GapAnalysis.RelType.LINKED_TO⟩,
            ⟨⟨10, "a"⟩, ⟨2, "bob"⟩, GapAnalysis.RelType.LINKED_TO⟩]⟩,
        ⟨⟨1, "bob"⟩, ⟨2, "bob"⟩,
          [⟨⟨10, "a"⟩, ⟨1, "bob"⟩, GapAnalysis.RelType.LINKED_TO⟩,
            ⟨⟨10, "a"⟩, ⟨2, "bob"⟩, GapAnalysis.RelType.RELATED⟩]⟩]
      = some [(1, ⟨⟨1, "bob"⟩,
          [(2, ⟨⟨2, "bob"⟩,
              [⟨⟨10, "a"⟩, ⟨1, "bob"⟩, GapAnalysis.RelType.LINKED_TO⟩,
                ⟨⟨10, "a"⟩, ⟨2, "bob"⟩, GapAnalysis.RelType.LINKED_TO⟩],
              0⟩)]⟩)] :=
  (C3_gap_analysis_dedup_lowest_score ⟨1, "bob"⟩ ⟨2, "bob"⟩
    [⟨⟨10, "a"⟩, ⟨1, "bob"⟩, GapAnalysis.RelType.LINKED_TO⟩,
      ⟨⟨10, "a"⟩, ⟨2, "bob"⟩, GapAnalysis.RelType.LINKED_TO⟩]
    [⟨⟨10, "a"⟩, ⟨1, "bob"⟩, GapAnalysis.RelType.LINKED_TO⟩,
      ⟨⟨10, "a"⟩, ⟨2, "bob"⟩, GapAnalysis.RelType.RELATED⟩]
    (by decide) (by decide)).1

namespace TextSearch

/-- Modelled from the spec: lowercase a string (ASCII case folding). -/
def strLower (s : String) : String :=
  String.mk (s.toList.map Char.toLower)

/-- Modelled from the spec: `leadsB n h` holds when `n` is a leading piece
of `h`. -/
def leadsB : List Char → List Char → Bool
  | [], _ => true
  | _ :: _, [] => false
  | a :: as, b :: bs => a == b && leadsB as bs

/-- Modelled from the spec: `containsSeq n h` holds when `n` occurs
contiguously inside `h`. -/
def containsSeq (needle : List Char) : List Char → Bool
  | [] => needle.isEmpty
  | c :: cs => leadsB needle (c :: cs) || containsSeq needle cs

/-- Modelled from the spec: case-insensitive substring test. -/
def substrCI (needle hay : String) : Bool :=
  containsSeq ((strLower needle).toList) ((strLower hay).toList)

/-- Modelled from the spec: a stored document as seen by the full-text
search. -/
structure Doc where
  doctype : String
  id : String
  name : String
  description : String
  sectionVal : String
  subsection : String
  hyperlink : String
deriving DecidableEq

/-- Modelled from the spec (§4.3): the known document-type labels of the
doctype-qualified query grammar. -/
def typeLabels : List String := ["CRE", "Standard", "Tool", "Code"]

/-- Modelled from the spec (§4.3): recognise a doctype-qualified query
`"<Type>[:| ]<rest>"` with a case-insensitive type label; returns the label
and the remainder of the query. -/
def findTypeQualifier (q : String) : Option (String × String) :=
  (typeLabels.find? (fun L =>
      leadsB ((strLower L).toList ++ [':']) ((strLower q).toList)
        || leadsB ((strLower L).toList ++ [' ']) ((strLower q).toList))).map
    (fun L => (L, String.mk (q.toList.drop (L.length + 1))))

/-- Modelled from the spec: split a segment list at the first `:` or space
separator. -/
def splitFirstSep : List Char → Option (List Char × List Char)
  | [] => none
  | c :: cs =>
      if c == ':' || c == ' ' then some ([], cs)
      else
        match splitFirstSep cs with
        | none => none
        | some (a, b) => some (c :: a, b)

/-- Modelled from the spec (§4.3): the structured scoped match.  For
`Type = CRE` the single segment must equal the CRE's external id or name;
for node types a single segment must equal the node's section, subsection or
hyperlink (exact scoped-field equality, stricter than the substring
fallback), and two segments match when the first equals the section and the
second equals the subsection or occurs in the trailing hyperlink path. -/
def scopedMatch (T seg1 : String) (seg2 : Option String) (d : Doc) : Bool :=
  if T == "CRE" then
    d.doctype == "CRE" && seg2.isNone && (d.id == seg1 || d.name == seg1)
  else
    d.doctype == T &&
      match seg2 with
      | none =>
          d.sectionVal == seg1 || d.subsection == seg1 || d.hyperlink == seg1
      | some s2 =>
          d.sectionVal == seg1 && (d.subsection == s2 || substrCI s2 d.hyperlink)

/-- Modelled from the spec: the synthetic per-document text blob of the
unscoped fallback — name, description, hyperlink, section, subsection and
id concatenated. -/
def blob (d : Doc) : String :=
  d.name ++ " " ++ d.description ++ " " ++ d.hyperlink ++ " "
    ++ d.sectionVal ++ " " ++ d.subsection ++ " " ++ d.id

/-- Modelled from the spec: the unscoped substring scan — every document
whose blob contains the query as a case-insensitive substring. -/
def fallback (docs : List Doc) (q : String) : List Doc :=
  docs.filter (fun d => substrCI q (blob d))

/-- Modelled from the spec (§4.3 `text_search`): try the doctype-qualified
grammar first (single segment, then two segments); a query with no
recognised type qualifier, or a qualified query that no document satisfies
structurally, falls back to the unscoped substring scan. -/
def text_search (docs : List Doc) (q : String) : List Doc :=
  match findTypeQualifier q with
  | some (T, rest) =>
      let single := docs.filter (scopedMatch T rest none)
      if !single.isEmpty then single
      else
        match splitFirstSep rest.toList with
        | some (a, b) =>
            let double := docs.filter
              (scopedMatch T (String.mk a) (some (String.mk b)))
            if !double.isEmpty then double else fallback docs q
        | none => fallback docs q
  | none => fallback docs q

/-- The CRE of the §8 text-search scenario. -/
def tsCRE : Doc :=
  ⟨"CRE", "123-456", "textSearchCRE", "lorem ipsum tsSection+tsC", "", "", ""⟩

/-- First Standard of the §8 text-search scenario. -/
def tsS1 : Doc :=
  ⟨"Standard", "", "textSearchStandard", "", "tsSection", "tsSubSection",
    "https://example.com/tsSection/tsSubSection"⟩

/-- Second Standard of the §8 text-search scenario. -/
def tsS2 : Doc :=
  ⟨"Standard", "", "textSearchStandard", "", "tsSection", "tsSubSection1",
    "https://example.com/tsSection/tsSubSection1"⟩

/-- Third Standard of the §8 text-search scenario (its section is the
superstring `tsSection1`). -/
def tsS3 : Doc :=
  ⟨"Standard", "", "textSearchStandard", "", "tsSection1", "tsSubSection1",
    "https://example.com/tsSection1/tsSubSection1"⟩

/-- The Tool of the §8 text-search scenario. -/
def tsTool : Doc :=
  ⟨"Tool", "", "textSearchTool", "test text search with tool", "rule 15", "",
    "https://example.com/textSearchTool"⟩

/-- The document collection of the §8 text-search scenario. -/
def tsDocs : List Doc := [tsCRE, tsS1, tsS2, tsS3, tsTool]

end TextSearch

/-- C5: a doctype-qualified query demands exact field equality while an
unqualified query is a substring scan: on the §8 documents the scoped query
"Standard:tsSection" returns only the two standards whose section equals
`tsSection` exactly (not the one whose section is the superstring
`tsSection1`, even though its hyperlink contains the string), whereas the
bare query "tsSection" returns all three standards plus the CRE whose
description contains the string — and no other document — via the
case-insensitive substring scan over the concatenated blob. -/
theorem C5_text_search_exact_vs_substring :
    TextSearch.text_search TextSearch.tsDocs "Standard:tsSection"
      = [TextSearch.tsS1, TextSearch.tsS2]
    ∧ TextSearch.text_search TextSearch.tsDocs "tsSection"
      = [TextSearch.tsCRE, TextSearch.tsS1, TextSearch.tsS2,
          TextSearch.tsS3] := by
  exact ⟨by decide, by decide⟩

namespace Osib

/-- Translated from `osib_defs.py`: a `_Link` list item (status fields are
not read by `parse_node` and are omitted). -/
structure OLink where
  link : String
  type : Option String
deriving DecidableEq

/-- Translated from `osib_defs.py`: a `_Source` i18n entry (only the fields
`parse_node` reads). -/
structure OSource where
  source : Option String
  name : String
  description : Option String
deriving DecidableEq

/-- Translated from `osib_defs.py`: `Node_attributes`; `sources_i18n` is a
dict from language to an optional source, modelled as an association
list. -/
structure Node_attributes where
  source_id : Option String
  links : List OLink
  categories : Option (List String)
  maturity : Option String
  sources_i18n : List (String × Option OSource)
deriving DecidableEq

/-- Translated from `osib_defs.py`: `Osib_node`; `children` is `None` or a
dict (modelled as an association list, the empty list standing for the
falsy empty dict). -/
inductive Osib_node where
  | mk (aliases : Option (List String)) (attributes : Option Node_attributes)
      (children : Option (List (String × Osib_node)))

/-- Accessor for the `aliases` field of an `Osib_node`. -/
def Osib_node.aliases : Osib_node → Option (List String)
  | .mk a _ _ => a

/-- Accessor for the `attributes` field of an `Osib_node`. -/
def Osib_node.attributes : Osib_node → Option Node_attributes
  | .mk _ a _ => a

/-- Accessor for the `children` field of an `Osib_node`. -/
def Osib_node.children : Osib_node → Option (List (String × Osib_node))
  | .mk _ _ c => c

/-- Translated from `osib_defs.py`: `Osib_tree` extends `Osib_node` with a
`doctype` (defaulting to "OSIB"); the `schema` and `date` fields are never
read by `osib2cre` and are omitted. -/
structure Osib_tree where
  aliases : Option (List String)
  attributes : Option Node_attributes
  children : Option (List (String × Osib_node))
  doctype : String

/-- Translated from `cre_defs.Credoctypes` as used by `osib_defs.py`. -/
inductive Credoctypes
  | CRE
  | Standard
deriving DecidableEq

/-- Translated from `cre_defs.LinkTypes` as used by `osib_defs.py`. -/
inductive LinkTypes
  | PartOf
  | Contains
  | Related
deriving DecidableEq

/-- A metadata label value: a plain string or a list of strings. -/
inductive LabelVal
  | str (s : String)
  | list (l : List String)
deriving DecidableEq

/-- Translated from `cre_defs.Document` as far as `parse_node` populates it.
The links attached by `parse_node` carry only a link type, because the
Python code stores the document itself as the link target
(`defs.Link(document=res, ...)`, a self reference). -/
structure Document where
  doctype : Option Credoctypes
  name : Option String
  sectionVal : String
  hyperlink : Option String
  labels : List (String × LabelVal)
  links : List LinkTypes
deriving DecidableEq

/-- The runtime failures the Python code can raise on the paths modelled
here: attribute access on `None`, returning a never-assigned local, and
`list.extend` applied to a non-iterable `Document`. -/
inductive PyErr
  | attributeError
  | unboundLocalError
  | typeError
deriving DecidableEq

/-- Translated from `osib_defs.py`: `parse_node` returns a bare `Document`
from its registration branch and a list of documents from its recursion
branch. -/
inductive ParseResult
  | doc (d : Document)
  | docs (l : List Document)
deriving DecidableEq

/-- Python truthiness of an optional string (`None` and `""` are falsy). -/
def strTruthy : Option String → Bool
  | none => false
  | some s => !(s == "")

/-- Python truthiness of an optional children dict (`None` and `{}` are
falsy). -/
def childrenTruthy : Option (List (String × Osib_node)) → Bool
  | none => false
  | some l => !l.isEmpty

/-- Python truthiness of an optional list (`None` and `[]` are falsy). -/
def listTruthy : Option (List String) → Bool
  | none => false
  | some l => !l.isEmpty

/-- The f-string `f"{current_path}.{section}"`: Python renders the `None`
default as the literal string "None". -/
def fmtPath (cp : Option String) (sec : String) : String :=
  (match cp with | none => "None" | some s => s) ++ "." ++ sec

/-- Translated from `osib_defs.py`: the metadata labels `parse_node` sets,
in order — alias, source_id, maturity, categories — each guarded by Python
truthiness of the corresponding attribute. -/
def buildLabels (o : Osib_node) (attrs : Node_attributes) :
    List (String × LabelVal) :=
  (match o.aliases with
    | some l => if l.isEmpty then [] else [("alias", LabelVal.list l)]
    | none => [])
  ++ (match attrs.source_id with
    | some sid => if sid == "" then [] else [("source_id", LabelVal.str sid)]
    | none => [])
  ++ (match attrs.maturity with
    | some m => if m == "" then [] else [("maturity", LabelVal.str m)]
    | none => [])
  ++ (match attrs.categories with
    | some cs => if cs.isEmpty then [] else [("categories", LabelVal.list cs)]
    | none => [])

/-- Translated from `osib_defs.py`: the self-links `parse_node` adds, one
per attribute link with a truthy `type`, mapped case-insensitively from
parent/child/related (the `resolve_path` results are bound but never
used by the Python code). -/
def buildLinks (links : List OLink) : List LinkTypes :=
  links.foldl
    (fun acc ol =>
      match ol.type with
      | none => acc
      | some t =>
          if t == "" then acc
          else if TextSearch.strLower t == "parent" then
            acc ++ [LinkTypes.PartOf]
          else if TextSearch.strLower t == "child" then
            acc ++ [LinkTypes.Contains]
          else if TextSearch.strLower t == "related" then
            acc ++ [LinkTypes.Related]
          else acc)
    []

/-- Translated from `osib_defs.py`: the registration branch of `parse_node`
(the guard of the branch is truthy `osib`, truthy `osib.attributes`, falsy
`osib.children`, truthy `current_path`, truthy `orgname`, truthy `root`).
The branch reads `english_attrs.get("source")`, modelled as the `source`
field; when there is no english source entry the branch falls through to
`return res` with `res` never assigned, an `UnboundLocalError`. -/
def registerNode (o : Osib_node) (attrs : Node_attributes)
    (orgname : String) (root : String) (name : Option String)
    (current_path : String) (node_type : Option Credoctypes) :
    Except PyErr ParseResult :=
  let p := current_path.replace (root ++ "." ++ orgname ++ ".") ""
  let english_attrs : Option OSource :=
    match attrs.sources_i18n.lookup "en" with
    | some v => v
    | none => none
  match english_attrs with
  | some src =>
      Except.ok (ParseResult.doc
        ⟨node_type, name, p, src.source, buildLabels o attrs,
          buildLinks attrs.links⟩)
  | none => Except.error PyErr.unboundLocalError

/-- Size of the children list is below the size of the node that carries
it (used for the termination of `parse_node`). -/
theorem sizeOf_children_lt (o : Osib_node)
    (kids : List (String × Osib_node)) (h : o.children = some kids) :
    sizeOf kids < sizeOf o := by
  cases o with
  | mk a b c =>
    simp only [Osib_node.children] at h
    subst h
    simp
    omega

/-- Unpacks the optional fields for the registration branch; the guard of
the branch (truthy `osib.attributes`, `current_path` and `orgname`)
guarantees the three fields are present, so the fall-through arm is
unreachable. -/
def registerNodeOpt (o : Osib_node) (orgname : Option String)
    (root : String) (name : Option String) (current_path : Option String)
    (node_type : Option Credoctypes) : Except PyErr ParseResult :=
  match o.attributes, current_path, orgname with
  | some attrs, some cp, some og =>
      registerNode o attrs og root name cp node_type
  | _, _, _ => Except.error PyErr.attributeError

mutual

/-- Translated from `osib_defs.py` (`parse_node`): either register a
leaf standard (the guard of the registration branch is truthy `osib`,
truthy `osib.attributes`, falsy `osib.children`, truthy `current_path`,
truthy `orgname` and truthy `root`) or iterate the children dict. -/
def parse_node (orgname : Option String) (root : String)
    (name : Option String) (osib : Option Osib_node)
    (current_path : Option String) (node_type : Option Credoctypes) :
    Except PyErr ParseResult :=
  match osib with
  | none => Except.error PyErr.attributeError
  | some o =>
      if o.attributes.isSome && !childrenTruthy o.children
          && strTruthy current_path && strTruthy orgname
          && !(root == "") then
        registerNodeOpt o orgname root name current_path node_type
      else parse_loop orgname root name o current_path node_type
termination_by sizeOf osib
decreasing_by
  all_goals simp_wf
  all_goals try simp
  all_goals omega

/-- Translated from `osib_defs.py` (the fall-through part of `parse_node`):
iterating the children of a `None`-children node raises an
`AttributeError`; otherwise the children are walked. -/
def parse_loop (orgname : Option String) (root : String)
    (name : Option String) (o : Osib_node) (current_path : Option String)
    (node_type : Option Credoctypes) : Except PyErr ParseResult :=
  match h : o.children with
  | none => Except.error PyErr.attributeError
  | some kids =>
      match parse_children orgname root name kids current_path node_type with
      | Except.error e => Except.error e
      | Except.ok ds => Except.ok (ParseResult.docs ds)
termination_by sizeOf o
decreasing_by
  simp_wf
  exact sizeOf_children_lt o kids h

/-- Translated from `osib_defs.py` (the `for section, child in
osib.children.items()` loop of `parse_node`): recurse into every child with
truthy children, extending the accumulated result; extending with the bare
`Document` of the registration branch raises a `TypeError`. -/
def parse_children (orgname : Option String) (root : String)
    (name : Option String) (kids : List (String × Osib_node))
    (current_path : Option String) (node_type : Option Credoctypes) :
    Except PyErr (List Document) :=
  match kids with
  | [] => Except.ok []
  | (sec, child) :: rest =>
      if childrenTruthy child.children then
        match parse_node orgname root name (some child)
            (some (fmtPath current_path sec)) node_type with
        | Except.error e => Except.error e
        | Except.ok (ParseResult.doc _) => Except.error PyErr.typeError
        | Except.ok (ParseResult.docs ds) =>
            match parse_children orgname root name rest current_path
                node_type with
            | Except.error e => Except.error e
            | Except.ok ds2 => Except.ok (ds ++ ds2)
      else parse_children orgname root name rest current_path node_type
termination_by sizeOf kids
decreasing_by
  all_goals simp_wf
  all_goals try simp
  all_goals omega

end

/-- Translated from `osib_defs.py` (the inner loop of `osib2cre` over one
org's projects): a project whose key does not lowercase to "cre" extends the
standards via `parse_node` with `node_type = Standard` and `name = pname`;
otherwise the CREs are extended with `node_type = CRE` and no name; in both
calls `current_path` is left at its default `None`. -/
def processProjects (root orgname : String)
    (projs : List (String × Osib_node)) :
    Except PyErr (List Document × List Document) :=
  match projs with
  | [] => Except.ok ([], [])
  | (pname, project) :: rest =>
      if !(TextSearch.strLower pname == "cre") then
        match parse_node (some orgname) root (some pname) (some project)
            none (some Credoctypes.Standard) with
        | Except.error e => Except.error e
        | Except.ok (ParseResult.doc _) => Except.error PyErr.typeError
        | Except.ok (ParseResult.docs ds) =>
            match processProjects root orgname rest with
            | Except.error e => Except.error e
            | Except.ok (cs, ss) => Except.ok (cs, ds ++ ss)
      else
        match parse_node (some orgname) root none (some project)
            none (some Credoctypes.CRE) with
        | Except.error e => Except.error e
        | Except.ok (ParseResult.doc _) => Except.error PyErr.typeError
        | Except.ok (ParseResult.docs ds) =>
            match processProjects root orgname rest with
            | Except.error e => Except.error e
            | Except.ok (cs, ss) => Except.ok (ds ++ cs, ss)

/-- Translated from `osib_defs.py` (the outer loop of `osib2cre` over the
tree's orgs): orgs with falsy children are skipped. -/
def processOrgs (root : String) (orgs : List (String × Osib_node)) :
    Except PyErr (List Document × List Document) :=
  match orgs with
  | [] => Except.ok ([], [])
  | (orgname, org) :: rest =>
      let step : Except PyErr (List Document × List Document) :=
        match org.children with
        | some kids =>
            if kids.isEmpty then Except.ok ([], [])
            else processProjects root orgname kids
        | none => Except.ok ([], [])
      match step with
      | Except.error e => Except.error e
      | Except.ok (c1, s1) =>
          match processOrgs root rest with
          | Except.error e => Except.error e
          | Except.ok (c2, s2) => Except.ok (c1 ++ c2, s1 ++ s2)

/-- Translated from `osib_defs.py` (`osib2cre`): `None` for a tree with
falsy children, otherwise the pair of accumulated CREs and standards. -/
def osib2cre (tree : Osib_tree) :
    Except PyErr (Option (List Document × List Document)) :=
  let root := tree.doctype
  match tree.children with
  | none => Except.ok none
  | some [] => Except.ok none
  | some orgs =>
      match processOrgs root orgs with
      | Except.error e => Except.error e
      | Except.ok (cs, ss) => Except.ok (some (cs, ss))

/-- Translated from `osib_defs.py` (`cre2osib`): the function body is the
bare statement `pass`, so every call returns `None`. -/
def cre2osib (docs : List Document) : Option (List Osib_tree) :=
  none

end Osib

namespace Osib

/-- Every `Osib_node` has positive size. -/
theorem sizeOf_node_pos (o : Osib_node) : 0 < sizeOf o := by
  cases o
  simp

/-- Every children list has positive size. -/
theorem sizeOf_kids_pos (kids : List (String × Osib_node)) :
    0 < sizeOf kids := by
  cases kids <;> simp

/-- Joint size-bounded induction: `parse_node` on a node with truthy
children always returns an empty document list (the registration branch is
unreachable because it requires falsy children, and the loop only recurses
into children that themselves have truthy children), and `parse_children`
always returns the empty list without an error. -/
theorem parse_ok_nil (n : Nat) :
    (∀ (o : Osib_node) (og : Option String) (root : String)
        (nm : Option String) (cp : Option String)
        (nt : Option Credoctypes),
      sizeOf o ≤ n → childrenTruthy o.children = true →
      parse_node og root nm (some o) cp nt
        = Except.ok (ParseResult.docs []))
    ∧ (∀ (kids : List (String × Osib_node)) (og : Option String)
        (root : String) (nm : Option String) (cp : Option String)
        (nt : Option Credoctypes),
      sizeOf kids ≤ n →
      parse_children og root nm kids cp nt = Except.ok []) := by
  induction n with
  | zero =>
    constructor
    · intro o og root nm cp nt hsz _
      exact absurd hsz (Nat.not_le.mpr (sizeOf_node_pos o))
    · intro kids og root nm cp nt hsz
      exact absurd hsz (Nat.not_le.mpr (sizeOf_kids_pos kids))
  | succ n ih =>
    have hloop : ∀ (o : Osib_node) (og : Option String) (root : String)
        (nm : Option String) (cp : Option String) (nt : Option Credoctypes),
        sizeOf o ≤ n + 1 → childrenTruthy o.children = true →
        parse_loop og root nm o cp nt = Except.ok (ParseResult.docs []) := by
      intro o og root nm cp nt hsz htr
      rw [parse_loop]
      split
      · rename_i heq
        rw [heq] at htr
        simp [childrenTruthy] at htr
      · rename_i kids heq
        have hk : sizeOf kids ≤ n := by
          have := sizeOf_children_lt o kids heq
          omega
        rw [ih.2 kids og root nm cp nt hk]
    constructor
    · intro o og root nm cp nt hsz htr
      rw [parse_node]
      simp only [htr, Bool.not_true, Bool.and_false, Bool.false_and,
        if_false]
      exact hloop o og root nm cp nt hsz htr
    · intro kids og root nm cp nt
      induction kids with
      | nil =>
        intro _
        rw [parse_children]
      | cons hd rest ihk =>
        intro hsz
        obtain ⟨sec, child⟩ := hd
        have hszc : sizeOf child ≤ n := by
          simp at hsz
          omega
        have hszr : sizeOf rest ≤ n + 1 := by
          simp at hsz ⊢
          omega
        rw [parse_children]
        by_cases hct : childrenTruthy child.children
        · simp only [hct, if_true]
          rw [ih.1 child og root nm (some (fmtPath cp sec)) nt hszc hct]
          rw [ihk hszr]
          rfl
        · simp only [hct, if_false]
          exact ihk hszr

/-- A node with truthy children parses to the empty document list. -/
theorem parse_node_truthy (o : Osib_node) (og : Option String)
    (root : String) (nm : Option String) (cp : Option String)
    (nt : Option Credoctypes) (htr : childrenTruthy o.children = true) :
    parse_node og root nm (some o) cp nt
      = Except.ok (ParseResult.docs []) :=
  (parse_ok_nil (sizeOf o)).1 o og root nm cp nt (Nat.le_refl _) htr

/-- The children walk always succeeds with the empty document list. -/
theorem parse_children_nil (kids : List (String × Osib_node))
    (og : Option String) (root : String) (nm : Option String)
    (cp : Option String) (nt : Option Credoctypes) :
    parse_children og root nm kids cp nt = Except.ok [] :=
  (parse_ok_nil (sizeOf kids)).2 kids og root nm cp nt (Nat.le_refl _)

/-- A top-level `parse_node` call (with `current_path` left at its `None`
default, as `osib2cre` does) either raises an `AttributeError` (children is
`None`) or returns the empty document list. -/
theorem parse_node_top (project : Osib_node) (og : Option String)
    (root : String) (nm : Option String) (nt : Option Credoctypes) :
    parse_node og root nm (some project) none nt
        = Except.error PyErr.attributeError
    ∨ parse_node og root nm (some project) none nt
        = Except.ok (ParseResult.docs []) := by
  have hloop : parse_loop og root nm project none nt
      = Except.error PyErr.attributeError
      ∨ parse_loop og root nm project none nt
      = Except.ok (ParseResult.docs []) := by
    rcases hc : project.children with _ | kids
    · left
      rw [parse_loop]
      split
      · rfl
      · rename_i kids heq
        rw [hc] at heq
        cases heq
    · right
      rw [parse_loop]
      split
      · rename_i heq
        rw [hc] at heq
        cases heq
      · rename_i kids2 heq
        rw [parse_children_nil kids2 og root nm none nt]
  rw [parse_node]
  simp only [strTruthy, Bool.and_false, Bool.false_and, if_false]
  exact hloop

/-- `processProjects` can only succeed with two empty lists. -/
theorem processProjects_nil (projs : List (String × Osib_node))
    (root orgname : String) (cs ss : List Document)
    (h : processProjects root orgname projs = Except.ok (cs, ss)) :
    cs = [] ∧ ss = [] := by
  induction projs generalizing cs ss with
  | nil =>
    rw [processProjects] at h
    injection h with h
    injection h with h1 h2
    exact ⟨h1.symm, h2.symm⟩
  | cons hd rest ihp =>
    obtain ⟨pname, project⟩ := hd
    rw [processProjects] at h
    by_cases hcre : TextSearch.strLower pname == "cre"
    · simp only [hcre, Bool.not_true, if_false] at h
      rcases parse_node_top project (some orgname) root none
          (some Credoctypes.CRE) with hp | hp
      · rw [hp] at h
        exact absurd h (by simp)
      · rw [hp] at h
        rcases hrest : processProjects root orgname rest with e | ⟨cs2, ss2⟩
        · rw [hrest] at h
          exact absurd h (by simp)
        · rw [hrest] at h
          rcases ihp cs2 ss2 hrest with ⟨hc2, hs2⟩
          simp only [hc2, hs2] at h
          injection h with h
          injection h with h1 h2
          exact ⟨h1.symm, h2.symm⟩
    · simp only [hcre, Bool.not_false, if_true] at h
      rcases parse_node_top project (some orgname) root (some pname)
          (some Credoctypes.Standard) with hp | hp
      · rw [hp] at h
        exact absurd h (by simp)
      · rw [hp] at h
        rcases hrest : processProjects root orgname rest with e | ⟨cs2, ss2⟩
        · rw [hrest] at h
          exact absurd h (by simp)
        · rw [hrest] at h
          rcases ihp cs2 ss2 hrest with ⟨hc2, hs2⟩
          simp only [hc2, hs2] at h
          injection h with h
          injection h with h1 h2
          exact ⟨h1.symm, h2.symm⟩

/-- `processOrgs` can only succeed with two empty lists. -/
theorem processOrgs_nil (orgs : List (String × Osib_node)) (root : String)
    (cs ss : List Document)
    (h : processOrgs root orgs = Except.ok (cs, ss)) :
    cs = [] ∧ ss = [] := by
  induction orgs generalizing cs ss with
  | nil =>
    rw [processOrgs] at h
    injection h with h
    injection h with h1 h2
    exact ⟨h1.symm, h2.symm⟩
  | cons hd rest iho =>
    obtain ⟨orgname, org⟩ := hd
    rw [processOrgs] at h
    rcases hc : org.children with _ | kids
    · simp only [hc] at h
      rcases hrest : processOrgs root rest with e | ⟨cs2, ss2⟩
      · rw [hrest] at h
        exact absurd h (by simp)
      · rw [hrest] at h
        rcases iho cs2 ss2 hrest with ⟨hc2, hs2⟩
        simp only [hc2, hs2] at h
        injection h with h
        injection h with h1 h2
        exact ⟨h1.symm, h2.symm⟩
    · simp only [hc] at h
      by_cases hk : kids.isEmpty
      · simp only [hk, if_true] at h
        rcases hrest : processOrgs root rest with e | ⟨cs2, ss2⟩
        · rw [hrest] at h
          exact absurd h (by simp)
        · rw [hrest] at h
          rcases iho cs2 ss2 hrest with ⟨hc2, hs2⟩
          simp only [hc2, hs2] at h
          injection h with h
          injection h with h1 h2
          exact ⟨h1.symm, h2.symm⟩
      · simp only [hk, if_false] at h
        rcases hproj : processProjects root orgname kids with e | ⟨c1, s1⟩
        · rw [hproj] at h
          exact absurd h (by simp)
        · rw [hproj] at h
          rcases processProjects_nil kids root orgname c1 s1 hproj with
            ⟨hc1, hs1⟩
          rcases hrest : processOrgs root rest with e | ⟨cs2, ss2⟩
          · rw [hrest] at h
            exact absurd h (by simp)
          · rw [hrest] at h
            rcases iho cs2 ss2 hrest with ⟨hc2, hs2⟩
            simp only [hc1, hs1, hc2, hs2] at h
            injection h with h
            injection h with h1 h2
            exact ⟨h1.symm, h2.symm⟩

/-- The concrete witness tree: one org holding one non-"cre" project that
has one leaf child. -/
def witnessTree : Osib_tree :=
  ⟨none, none,
    some [("org", Osib_node.mk none none
      (some [("proj", Osib_node.mk none none
        (some [("x", Osib_node.mk none none none)]))]))],
    "OSIB"⟩

end Osib

/-- C7 (code bug): `cre2osib`'s body is the bare statement `pass`, so it
returns `None` for every input list of documents — in particular for the
empty list — and therefore never produces an OSIB tree that `osib2cre`
could round-trip back to the §3 attributes. -/
theorem C7_cre2osib_unimplemented (docs : List Osib.Document) :
    Osib.cre2osib docs = none ∧ Osib.cre2osib [] = none :=
  ⟨rfl, rfl⟩

/-- C10: whenever `osib2cre` returns a tuple at all (it returns `None` for
a tree with falsy children and raises when an org's project node has falsy
children), both returned lists — the CREs and the standards — are empty:
the top-level registration branch requires a truthy `current_path`, which
`osib2cre` leaves at its `None` default, and the recursion only descends
into children that themselves have children, so the leaf registration
branch is unreachable. -/
theorem C10_osib2cre_returns_empty_lists (t : Osib.Osib_tree)
    (cs ss : List Osib.Document)
    (h : Osib.osib2cre t = Except.ok (some (cs, ss))) :
    cs = [] ∧ ss = [] := by
  rw [Osib.osib2cre] at h
  split at h
  · exact absurd h (by simp)
  · exact absurd h (by simp)
  · rename_i orgs h1 h2
    split at h
    · exact absurd h (by simp)
    · rename_i c s horgs
      injection h with h
      injection h with h
      injection h with hcs hss
      exact hcs ▸ hss ▸ Osib.processOrgs_nil orgs t.doctype c s horgs

/-- Witness for C10 at a concrete input: `osib2cre` on the witness tree
succeeds and, by the theorem, both returned lists are empty. -/
theorem C10_osib2cre_returns_empty_lists_witness :
    Osib.osib2cre Osib.witnessTree = Except.ok (some ([], []))
    ∧ (([] : List Osib.Document) = [] ∧ ([] : List Osib.Document) = []) := by
  have heval : Osib.osib2cre Osib.witnessTree
      = Except.ok (some ([], [])) := by
    rw [Osib.osib2cre]
    simp only [Osib.witnessTree]
    rw [Osib.processOrgs]
    simp only [Osib.Osib_node.children]
    rw [Osib.processProjects]
    rw [Osib.parse_node_truthy _ _ _ _ _ _ (by rfl)]
    rw [Osib.processProjects]
    rw [Osib.processOrgs]
    rfl
  exact ⟨heval,
    C10_osib2cre_returns_empty_lists Osib.witnessTree [] [] heval⟩
